import Mathlib

/-!
Verification of the markitdown command-line utility
(src/markitdown_utility.py): a shallow embedding of its routing,
corpus combination, chunking, LLM map/reduce orchestration and output
emission, together with theorems about the behaviour of those parts.
External effects (file reading, the HTTP fetch, the OpenAI backend,
writing the output file) are modelled as oracle functions passed in as
parameters; everything the Python file itself computes is translated
directly from its source.
-/

/-! ## Chunker

Modelled from the spec: the Chunker of section 4.3. The source delegates
`split_text_into_chunks` (lines 240-258) to langchain
RecursiveCharacterTextSplitter, whose code is not part of this
repository. Following the contract stated in the spec, the model splits
a string into windows of at most `size` characters, each window after
the first starting `overlap` characters before the end of the previous
window, i.e. a sliding window with step `size - overlap` at character
granularity (the boundary-preference refinement of clause (c) is not
modelled). -/

def chunkFromAux (size step : Nat) : Nat → List Char → List (List Char)
  | 0, s => [s]
  | fuel + 1, s =>
    if s.length ≤ size ∨ step = 0 then [s]
    else s.take size :: chunkFromAux size step fuel (s.drop step)

/-- The window recursion: emit the first `size` characters, restart
`step` characters in, stop when the remainder fits in one window. The
recursion is driven by a fuel argument bounding the length of the
remainder (each recursive call shortens the remainder by `step ≥ 1`, so
the initial length is always enough fuel), which keeps the definition
structurally recursive and hence computable by evaluation. -/
def chunkFrom (size step : Nat) (s : List Char) : List (List Char) :=
  chunkFromAux size step s.length s

/-- The corresponding source function takes a text and the chunking
parameters (defaults 2000 and 200) and returns the ordered chunk list. -/
def split_text_into_chunks (text : String) (chunk_size chunk_overlap : Nat) : List String :=
  (chunkFrom chunk_size (chunk_size - chunk_overlap) text.data).map String.mk

/-- First `n` characters of a string, by the underlying character list. -/
def takeChars (s : String) (n : Nat) : String := String.mk (s.data.take n)

/-- Concatenation of the chunks with every overlapping region (the part a
chunk shares with its successor, i.e. everything past its first `step`
characters) removed: each chunk except the last contributes its first
`step` characters, the last contributes itself whole. -/
def reassembleL (step : Nat) : List (List Char) → List Char
  | [] => []
  | [c] => c
  | c :: c2 :: cs => c.take step ++ reassembleL step (c2 :: cs)

/-- String-level counterpart of `reassembleL`. -/
def reassembleChunks (step : Nat) : List String → String
  | [] => ""
  | [c] => c
  | c :: c2 :: cs => takeChars c step ++ reassembleChunks step (c2 :: cs)

theorem chunkFromAux_ne_nil (size step fuel : Nat) (s : List Char) :
    chunkFromAux size step fuel s ≠ [] := by
  cases fuel with
  | zero => simp [chunkFromAux]
  | succ n =>
    rw [chunkFromAux]
    split <;> simp

theorem chunkFrom_ne_nil (size step : Nat) (s : List Char) :
    chunkFrom size step s ≠ [] :=
  chunkFromAux_ne_nil size step s.length s

theorem reassembleL_chunkFromAux (size step : Nat) (h1 : step ≠ 0) (h2 : step ≤ size) :
    ∀ (fuel : Nat) (s : List Char), s.length ≤ fuel →
      reassembleL step (chunkFromAux size step fuel s) = s := by
  intro fuel
  induction fuel with
  | zero => intro s hs; rfl
  | succ n ih =>
    intro s hs
    rw [chunkFromAux]
    by_cases hc : s.length ≤ size ∨ step = 0
    · rw [if_pos hc]; rfl
    · rw [if_neg hc]
      push_neg at hc
      obtain ⟨hlen, _⟩ := hc
      have hrec := ih (s.drop step) (by rw [List.length_drop]; omega)
      obtain ⟨c2, cs, hcons⟩ :=
        List.exists_cons_of_ne_nil (chunkFromAux_ne_nil size step n (s.drop step))
      rw [hcons] at hrec ⊢
      show (s.take size).take step ++ reassembleL step (c2 :: cs) = s
      rw [hrec, List.take_take, Nat.min_eq_left h2, List.take_append_drop]

theorem reassembleL_chunkFrom (size step : Nat) (h1 : step ≠ 0) (h2 : step ≤ size)
    (s : List Char) : reassembleL step (chunkFrom size step s) = s :=
  reassembleL_chunkFromAux size step h1 h2 s.length s le_rfl

theorem chunkFromAux_length_le (size step : Nat) (h1 : step ≠ 0) :
    ∀ (fuel : Nat) (s : List Char), s.length ≤ fuel →
      ∀ c ∈ chunkFromAux size step fuel s, c.length ≤ size := by
  intro fuel
  induction fuel with
  | zero =>
    intro s hs c hc
    simp [chunkFromAux] at hc
    subst hc
    omega
  | succ n ih =>
    intro s hs c hc
    rw [chunkFromAux] at hc
    by_cases hcond : s.length ≤ size ∨ step = 0
    · rw [if_pos hcond] at hc
      simp at hc
      subst hc
      rcases hcond with h | h
      · exact h
      · exact absurd h h1
    · rw [if_neg hcond] at hc
      push_neg at hcond
      obtain ⟨hlen, _⟩ := hcond
      rcases List.mem_cons.mp hc with h | h
      · subst h
        simp [List.length_take]
      · exact ih (s.drop step) (by rw [List.length_drop]; omega) c h

theorem chunkFrom_length_le (size step : Nat) (h1 : step ≠ 0) (s : List Char) :
    ∀ c ∈ chunkFrom size step s, c.length ≤ size :=
  chunkFromAux_length_le size step h1 s.length s le_rfl

theorem chunkFrom_one_lt (size step : Nat) (h1 : step ≠ 0) (s : List Char)
    (h : size < s.length) : 1 < (chunkFrom size step s).length := by
  rw [chunkFrom]
  cases hn : s.length with
  | zero => omega
  | succ n =>
    rw [chunkFromAux, if_neg (by push_neg; exact ⟨by omega, h1⟩)]
    rw [List.length_cons]
    have h2 := List.length_pos.mpr (chunkFromAux_ne_nil size step n (s.drop step))
    omega

theorem reassembleChunks_map (step : Nat) (ls : List (List Char)) :
    reassembleChunks step (ls.map String.mk) = String.mk (reassembleL step ls) := by
  induction ls with
  | nil => rfl
  | cons c rest ih =>
    cases rest with
    | nil => rfl
    | cons c2 cs =>
      simp only [List.map_cons] at ih ⊢
      rw [reassembleChunks, reassembleL]
      rw [ih]
      rfl

/-! ## Source Router

`process_input` (lines 202-238) inspects one input reference and
dispatches to an extractor. The extractors themselves perform I/O and
are external collaborators; what the repository owns is the dispatch
decision, embedded here as a `Route` value. The filesystem is an oracle
`pathExists`. -/

inductive Route where
  | url
  | notFound
  | pdf
  | docx
  | csv
  | plainText (warned : Bool)
deriving DecidableEq

/-- Highest index of character `c` in the list, `-1` when absent: the
behaviour of Python str.rfind used by os.path.splitext. -/
def rfindIdx (c : Char) : List Char → Int
  | [] => -1
  | x :: xs =>
    let r := rfindIdx c xs
    if 0 ≤ r then r + 1
    else if x = c then 0 else -1

/-- The extension part of os.path.splitext on a POSIX path: the text from
the last dot onward, provided that dot lies after the last slash and the
base name has at least one character other than a dot before it (so names
made of leading dots, such as ".bashrc", have no extension). -/
def splitextExt (p : String) : String :=
  let cs := p.data
  let sepIndex := rfindIdx '/' cs
  let dotIndex := rfindIdx '.' cs
  if sepIndex < dotIndex then
    if ((cs.drop (sepIndex + 1).toNat).take (dotIndex - sepIndex - 1).toNat).any
        (fun ch => ch != '.') then
      String.mk (cs.drop dotIndex.toNat)
    else ""
  else ""

/-- The dispatch decision of `process_input`, clause for clause: the URL
scheme test, then the existence test, then the elif chain on the
lowercased extension, with the unknown-extension fallback that warns and
tries the plain-text extractor. -/
def process_input_route (pathExists : String → Bool) (input_source : String) : Route :=
  if input_source.startsWith "http://" || input_source.startsWith "https://" then
    Route.url
  else if !pathExists input_source then
    Route.notFound
  else
    let file_extension := (splitextExt input_source).toLower
    if file_extension = ".pdf" then Route.pdf
    else if file_extension = ".docx" then Route.docx
    else if file_extension = ".csv" then Route.csv
    else if file_extension ∈ [".txt", ".md", ".json", ".html", ".htm"] then
      Route.plainText false
    else Route.plainText true

/-- The dispatch rule as the specification words it (section 4.1): a
reference matching a URL scheme is routed to the URL extractor;
otherwise a missing path fails with a not-found signal; otherwise the
extractor is selected by file extension case-insensitively, with
unknown extensions falling back to the plain-text extractor with a
warning. -/
def routeSpecification (pathExists : String → Bool) (reference : String) : Route :=
  if reference.startsWith "http://" = true ∨ reference.startsWith "https://" = true then
    Route.url
  else if pathExists reference = false then
    Route.notFound
  else
    let ext := (splitextExt reference).toLower
    if ext = ".pdf" then Route.pdf
    else if ext = ".docx" then Route.docx
    else if ext = ".csv" then Route.csv
    else if ext = ".txt" ∨ ext = ".md" ∨ ext = ".json" ∨ ext = ".html" ∨ ext = ".htm" then
      Route.plainText false
    else Route.plainText true

/-! ## Completion Client

`process_with_llm` (lines 260-290) builds one prompt from the content
and the optional query and issues one backend call. The backend is an
oracle returning either generated text or an error message; the Python
function turns a raised error into a fatal exit, which the orchestrator
model below reflects. -/

/-- Prompt construction of `process_with_llm` lines 271-275: a falsy
query (absent, or the empty string) selects the default summarization
prompt. -/
def makePrompt (content : String) (query : Option String) : String :=
  match query with
  | none => "Please summarize the following content concisely:\n\n" ++ content
  | some q =>
    if q = "" then "Please summarize the following content concisely:\n\n" ++ content
    else q ++ "\n\nContent:\n" ++ content

def process_with_llm (backend : String → Except String String)
    (content : String) (query : Option String) : Except String String :=
  backend (makePrompt content query)

/-- One completion call as the orchestrator issues it: the content and
query arguments of one `process_with_llm` invocation. -/
structure CallRecord where
  content : String
  query : Option String
deriving DecidableEq

/-- Outcome of the per-chunk map loop (lines 339-344): the collected
results, the completion calls issued in order, and the verbose progress
lines printed, or the fatal backend error that stopped the program. -/
inductive MapOut where
  | ok (results : List String) (calls : List CallRecord) (logs : List String)
  | fatal (e : String) (calls : List CallRecord) (logs : List String)
deriving DecidableEq

def mapChunks (backend : String → Except String String) (verbose : Bool)
    (q : Option String) (total : Nat) : Nat → List String → MapOut
  | _, [] => .ok [] [] []
  | i, c :: cs =>
    let vlog := if verbose then
      ["Processing chunk " ++ toString (i + 1) ++ "/" ++ toString total] else []
    match process_with_llm backend c q with
    | .error e => .fatal e [⟨c, q⟩] (vlog ++ ["Error calling OpenAI API: " ++ e])
    | .ok r =>
      match mapChunks backend verbose q total (i + 1) cs with
      | .ok rs calls lgs => .ok (r :: rs) (⟨c, q⟩ :: calls) (vlog ++ lgs)
      | .fatal e calls lgs => .fatal e (⟨c, q⟩ :: calls) (vlog ++ lgs)

/-- Outcome of the whole LLM phase (lines 328-360): the final result,
the completion calls in order and the verbose lines, or the fatal
backend error. -/
inductive PhaseOut where
  | ok (result : String) (calls : List CallRecord) (logs : List String)
  | fatal (e : String) (calls : List CallRecord) (logs : List String)
deriving DecidableEq

def PhaseOut.calls : PhaseOut → List CallRecord
  | .ok _ cs _ => cs
  | .fatal _ cs _ => cs

/-- The fixed reduce directive of line 354. -/
def reduceInstruction : String :=
  "Combine the following summaries into a coherent single summary, removing redundancies:"

/-- Lines 328-360: chunk when the combined content is over 4000
characters, process every chunk, reduce when more than one result, else
a single direct call. -/
def llmPhase (backend : String → Except String String) (verbose : Bool)
    (q : Option String) (combined : String) : PhaseOut :=
  if 4000 < combined.length then
    let sizeLog := if verbose then
      ["Content size (" ++ toString combined.length ++
        " chars) exceeds processing limit. Chunking content..."] else []
    let chunks := split_text_into_chunks combined 2000 200
    let splitLog := if verbose then
      ["Split content into " ++ toString chunks.length ++ " chunks"] else []
    match mapChunks backend verbose q chunks.length 0 chunks with
    | .fatal e calls lgs => .fatal e calls (sizeLog ++ splitLog ++ lgs)
    | .ok results calls lgs =>
      if 1 < results.length then
        let combineLog := if verbose then
          ["Combining results from multiple chunks..."] else []
        let combined_results := String.intercalate "\n\n" results
        match process_with_llm backend combined_results (some reduceInstruction) with
        | .error e =>
          .fatal e (calls ++ [⟨combined_results, some reduceInstruction⟩])
            (sizeLog ++ splitLog ++ lgs ++ combineLog ++ ["Error calling OpenAI API: " ++ e])
        | .ok fr =>
          .ok fr (calls ++ [⟨combined_results, some reduceInstruction⟩])
            (sizeLog ++ splitLog ++ lgs ++ combineLog)
      else
        .ok (results.headD "") calls (sizeLog ++ splitLog ++ lgs)
  else
    match process_with_llm backend combined q with
    | .error e => .fatal e [⟨combined, q⟩] ["Error calling OpenAI API: " ++ e]
    | .ok r => .ok r [⟨combined, q⟩] []

/-! ## Aggregator / Orchestrator

`main` (lines 292-376): collect extraction results, combine with the
separator, run the LLM phase, emit. Extraction behaviour (the whole of
`process_input` including its extractors) is an oracle
`extract : String → Option String`, exactly the Python return type;
success of the output-file write is an oracle `writeErr` (`none` means
the write succeeded, `some e` the exception message). -/

/-- Command-line arguments of lines 301-304. -/
structure Args where
  inputs : List String
  query : Option String
  output : Option String
  verbose : Bool
deriving DecidableEq

/-- How the process ends: the fatal no-content exit of line 323, the
fatal backend exit of line 290, or a normal finish with the final
result. -/
inductive Outcome where
  | exitNoContent
  | exitBackend (e : String)
  | done (finalResult : String)
deriving DecidableEq

/-- The process exit status of each outcome (sys.exit(1) for the two
fatal cases, 0 otherwise). -/
def exitCode : Outcome → Nat
  | .exitNoContent => 1
  | .exitBackend _ => 1
  | .done _ => 0

structure RunResult where
  outcome : Outcome
  written : Option String
  console : List String
deriving DecidableEq

/-- The collection loop of lines 310-318: extract each input in order,
append truthy content (non-absent and non-empty) to all_content, print
the verbose extraction count. Returns (all_content, console lines). -/
def collectPhase (extract : String → Option String) (verbose : Bool) :
    List String → List String × List String
  | [] => ([], [])
  | src :: rest =>
    match extract src with
    | none => collectPhase extract verbose rest
    | some c =>
      if c = "" then collectPhase extract verbose rest
      else
        let r := collectPhase extract verbose rest
        (c :: r.1,
          (if verbose then
            ["Extracted " ++ toString c.length ++ " characters from " ++ src]
            else []) ++ r.2)

/-- The banner text of line 326 before the join: two newlines, thirty
dashes, the label, thirty dashes. -/
def separator_banner : String :=
  "\n\n" ++ String.mk (List.replicate 30 '-') ++ " DOCUMENT SEPARATOR " ++
    String.mk (List.replicate 30 '-')

/-- Line 326 as Python evaluates it: the banner is concatenated once in
front, and the separator of the join over all_content is the two-newline
string (the final "\n\n" literal binds to .join, not to the banner). -/
def combined_content (all_content : List String) : String :=
  separator_banner ++ String.intercalate "\n\n" all_content

/-- The successful extractions in input order: absent results and empty
strings are dropped, everything else is kept unchanged. -/
def successes (results : List (Option String)) : List String :=
  results.filterMap fun r =>
    match r with
    | some c => if c = "" then none else some c
    | none => none

/-- Lines 362-376: write the final result to the output file when one
was named, falling back to a plain console print of the result when the
write raises; with no output file, print the result between two
80-equals-sign separator lines. Returns (file content written, console
lines). -/
def emitPhase (output : Option String) (writeErr : Option String) (final_result : String) :
    Option String × List String :=
  match output with
  | some path =>
    match writeErr with
    | none => (some final_result, ["Output written to " ++ path])
    | some e => (none, ["Error writing to output file: " ++ e, final_result])
  | none =>
    (none, ["\n" ++ String.mk (List.replicate 80 '=') ++ "\n", final_result,
            "\n" ++ String.mk (List.replicate 80 '=')])

/-- The whole of `main` after argument parsing (lines 310-376). -/
def mainRun (extract : String → Option String) (backend : String → Except String String)
    (writeErr : Option String) (args : Args) : RunResult :=
  let collected := collectPhase extract args.verbose args.inputs
  if collected.1 = [] then
    ⟨.exitNoContent, none,
      collected.2 ++ ["Error: No content could be extracted from the provided inputs."]⟩
  else
    let combined := combined_content collected.1
    match llmPhase backend args.verbose args.query combined with
    | .fatal e _ lgs => ⟨.exitBackend e, none, collected.2 ++ lgs⟩
    | .ok fr _ lgs =>
      let emitted := emitPhase args.output writeErr fr
      ⟨.done fr, emitted.1, collected.2 ++ lgs ++ emitted.2⟩

/-! ## Helper lemmas -/

theorem successes_none (rs : List (Option String)) :
    successes (none :: rs) = successes rs := by
  simp [successes]

theorem successes_some (c : String) (rs : List (Option String)) :
    successes (some c :: rs) = if c = "" then successes rs else c :: successes rs := by
  by_cases hc : c = "" <;> simp [successes, hc]

theorem collectPhase_fst (extract : String → Option String) (verbose : Bool)
    (inputs : List String) :
    (collectPhase extract verbose inputs).1 = successes (inputs.map extract) := by
  induction inputs with
  | nil => rfl
  | cons src rest ih =>
    rw [collectPhase, List.map_cons]
    cases h : extract src with
    | none => rw [successes_none]; exact ih
    | some c =>
      rw [successes_some]
      by_cases hc : c = ""
      · simp only [hc, if_pos rfl]
        exact ih
      · simp only [if_neg hc]
        rw [ih]

theorem successes_eq_nil_iff (results : List (Option String)) :
    successes results = [] ↔ ∀ r ∈ results, r = none ∨ r = some "" := by
  rw [successes, List.filterMap_eq_nil_iff]
  constructor
  · intro h r hr
    rcases r with _ | c
    · exact Or.inl rfl
    · have h2 := h _ hr
      by_cases hc : c = ""
      · exact Or.inr (by rw [hc])
      · simp [hc] at h2
  · intro h r hr
    rcases h r hr with h2 | h2 <;> subst h2 <;> simp

theorem mainRun_noContent_iff (extract : String → Option String)
    (backend : String → Except String String) (writeErr : Option String) (args : Args) :
    (mainRun extract backend writeErr args).outcome = Outcome.exitNoContent ↔
      (collectPhase extract args.verbose args.inputs).1 = [] := by
  rw [mainRun]
  by_cases h : (collectPhase extract args.verbose args.inputs).1 = []
  · simp [h]
  · simp only [h, if_neg, if_false]
    cases hl : llmPhase backend args.verbose args.query
        (combined_content (collectPhase extract args.verbose args.inputs).1) <;>
      simp [h, hl]

theorem mapChunks_okAll (f : String → String) (verbose : Bool) (q : Option String)
    (total : Nat) :
    ∀ (chunks : List String) (i : Nat), ∃ lgs,
      mapChunks (fun p => Except.ok (f p)) verbose q total i chunks =
        MapOut.ok (chunks.map fun c => f (makePrompt c q))
          (chunks.map fun c => CallRecord.mk c q) lgs := by
  intro chunks
  induction chunks with
  | nil => intro i; exact ⟨[], rfl⟩
  | cons c cs ih =>
    intro i
    obtain ⟨lgs, hlgs⟩ := ih (i + 1)
    refine ⟨(if verbose then
      ["Processing chunk " ++ toString (i + 1) ++ "/" ++ toString total] else []) ++ lgs, ?_⟩
    rw [mapChunks]
    simp only [process_with_llm, hlgs, List.map_cons]

theorem mapChunks_fatal_lastLog (backend : String → Except String String)
    (verbose : Bool) (q : Option String) (total : Nat) :
    ∀ (chunks : List String) (i : Nat) (e : String) (cs : List CallRecord)
      (lgs : List String),
      mapChunks backend verbose q total i chunks = MapOut.fatal e cs lgs →
      lgs.getLast? = some ("Error calling OpenAI API: " ++ e) := by
  intro chunks
  induction chunks with
  | nil => intro i e cs lgs h; simp [mapChunks] at h
  | cons c rest ih =>
    intro i e cs lgs h
    rw [mapChunks] at h
    cases hb : process_with_llm backend c q with
    | error e2 =>
      rw [hb] at h
      simp only [MapOut.fatal.injEq] at h
      obtain ⟨he, _, hl⟩ := h
      subst he
      rw [← hl, List.getLast?_append]
      rfl
    | ok r =>
      rw [hb] at h
      cases hm : mapChunks backend verbose q total (i + 1) rest with
      | ok rs calls lgs2 => rw [hm] at h; simp at h
      | fatal e2 calls lgs2 =>
        rw [hm] at h
        simp only [MapOut.fatal.injEq] at h
        obtain ⟨he, _, hl⟩ := h
        subst he
        have h2 := ih (i + 1) e2 calls lgs2 hm
        rw [← hl, List.getLast?_append, h2]
        rfl

/-- A map-loop outcome with its verbose log stripped: what the loop
computes, as opposed to what it prints. -/
def MapOut.strip : MapOut → MapOut
  | .ok rs cs _ => .ok rs cs []
  | .fatal e cs _ => .fatal e cs []

/-- A phase outcome with its verbose log stripped. -/
def PhaseOut.strip : PhaseOut → PhaseOut
  | .ok r cs _ => .ok r cs []
  | .fatal e cs _ => .fatal e cs []

theorem mapChunks_strip (backend : String → Except String String) (q : Option String)
    (t1 t2 : Nat) :
    ∀ (chunks : List String) (i1 i2 : Nat) (v1 v2 : Bool),
      (mapChunks backend v1 q t1 i1 chunks).strip =
        (mapChunks backend v2 q t2 i2 chunks).strip := by
  intro chunks
  induction chunks with
  | nil => intro i1 i2 v1 v2; rfl
  | cons c cs ih =>
    intro i1 i2 v1 v2
    rw [mapChunks, mapChunks]
    cases hb : process_with_llm backend c q with
    | error e => rfl
    | ok r =>
      have h := ih (i1 + 1) (i2 + 1) v1 v2
      cases h1 : mapChunks backend v1 q t1 (i1 + 1) cs with
      | ok rs calls lgs =>
        cases h2 : mapChunks backend v2 q t2 (i2 + 1) cs with
        | ok rs2 calls2 lgs2 =>
          rw [h1, h2] at h
          simp only [MapOut.strip, MapOut.ok.injEq] at h
          obtain ⟨ha, hb2, _⟩ := h
          subst ha hb2
          rfl
        | fatal e2 calls2 lgs2 => rw [h1, h2] at h; simp [MapOut.strip] at h
      | fatal e calls lgs =>
        cases h2 : mapChunks backend v2 q t2 (i2 + 1) cs with
        | ok rs2 calls2 lgs2 => rw [h1, h2] at h; simp [MapOut.strip] at h
        | fatal e2 calls2 lgs2 =>
          rw [h1, h2] at h
          simp only [MapOut.strip, MapOut.fatal.injEq] at h
          obtain ⟨ha, hb2, _⟩ := h
          subst ha hb2
          rfl

theorem llmPhase_strip (backend : String → Except String String) (q : Option String)
    (combined : String) (v1 v2 : Bool) :
    (llmPhase backend v1 q combined).strip = (llmPhase backend v2 q combined).strip := by
  rw [llmPhase, llmPhase]
  by_cases h : 4000 < combined.length
  · simp only [if_pos h]
    have hm := mapChunks_strip backend q (split_text_into_chunks combined 2000 200).length
      (split_text_into_chunks combined 2000 200).length
      (split_text_into_chunks combined 2000 200) 0 0 v1 v2
    cases h1 : mapChunks backend v1 q (split_text_into_chunks combined 2000 200).length 0
        (split_text_into_chunks combined 2000 200) with
    | fatal e cs lgs =>
      cases h2 : mapChunks backend v2 q (split_text_into_chunks combined 2000 200).length 0
          (split_text_into_chunks combined 2000 200) with
      | fatal e2 cs2 lgs2 =>
        rw [h1, h2] at hm
        simp only [MapOut.strip, MapOut.fatal.injEq] at hm
        obtain ⟨he, hcs, _⟩ := hm
        subst he hcs
        rfl
      | ok rs2 cs2 lgs2 => rw [h1, h2] at hm; simp [MapOut.strip] at hm
    | ok rs cs lgs =>
      cases h2 : mapChunks backend v2 q (split_text_into_chunks combined 2000 200).length 0
          (split_text_into_chunks combined 2000 200) with
      | fatal e2 cs2 lgs2 => rw [h1, h2] at hm; simp [MapOut.strip] at hm
      | ok rs2 cs2 lgs2 =>
        rw [h1, h2] at hm
        simp only [MapOut.strip, MapOut.ok.injEq] at hm
        obtain ⟨hrs, hcs, _⟩ := hm
        subst hrs hcs
        by_cases hr : 1 < rs.length
        · simp only [if_pos hr]
          cases hb : process_with_llm backend (String.intercalate "\n\n" rs)
              (some reduceInstruction) <;> rfl
        · simp only [if_neg hr]
          rfl
  · simp only [if_neg h]

/-! ## Claim theorems -/

/-- C9: for every input string and every (max size, overlap) pair with
overlap strictly below the max size, the chunker produces an ordered
chunk sequence such that concatenating the chunk contents minus the
overlapping regions reconstructs the original string exactly, every
chunk has length at most the max size, and identical input and
parameters yield an identical chunk sequence. -/
theorem C9_chunker_coverage (text : String) (size overlap : Nat) (h : overlap < size) :
    reassembleChunks (size - overlap) (split_text_into_chunks text size overlap) = text ∧
    (∀ c ∈ split_text_into_chunks text size overlap, c.length ≤ size) ∧
    (∀ text2 : String, text2 = text →
      split_text_into_chunks text2 size overlap =
        split_text_into_chunks text size overlap) := by
  have hstep : size - overlap ≠ 0 := by omega
  have hle : size - overlap ≤ size := by omega
  refine ⟨?_, ?_, ?_⟩
  · rw [split_text_into_chunks, reassembleChunks_map,
      reassembleL_chunkFrom size (size - overlap) hstep hle text.data]
  · intro c hc
    rw [split_text_into_chunks] at hc
    obtain ⟨l, hl, rfl⟩ := List.mem_map.mp hc
    exact chunkFrom_length_le size (size - overlap) hstep text.data l hl
  · intro text2 h2
    rw [h2]

/-- Witness for C9: the chunker contract evaluated at a concrete string
with max size 10 and overlap 3. -/
theorem C9_chunker_coverage_witness :
    3 < 10 ∧
    (reassembleChunks (10 - 3) (split_text_into_chunks "hello world, chunking witness" 10 3) =
        "hello world, chunking witness" ∧
      (∀ c ∈ split_text_into_chunks "hello world, chunking witness" 10 3, c.length ≤ 10) ∧
      (∀ text2 : String, text2 = "hello world, chunking witness" →
        split_text_into_chunks text2 10 3 =
          split_text_into_chunks "hello world, chunking witness" 10 3)) :=
  ⟨by decide, C9_chunker_coverage "hello world, chunking witness" 10 3 (by decide)⟩

/-- C5: dispatch of `process_input` agrees with the routing rule as the
specification words it: URL scheme first, then the existence check, then
case-insensitive extension dispatch with a warning fallback to the
plain-text extractor. -/
theorem C5_routing (pathExists : String → Bool) (s : String) :
    process_input_route pathExists s = routeSpecification pathExists s := by
  simp only [process_input_route, routeSpecification, Bool.or_eq_true, Bool.not_eq_true',
    List.mem_cons, List.not_mem_nil, or_false]

/-- C1: the Combine step evaluated at two successfully extracted
documents "A" and "B": the separator banner is prepended once before
everything and the two documents are joined by a blank line only; the
banner does not stand between the pair. -/
theorem C1_code_behavior :
    combined_content ["A", "B"] = separator_banner ++ "A\n\nB" ∧
    combined_content ["A", "B"] ≠ String.intercalate separator_banner ["A", "B"] := by
  constructor
  · decide
  · decide

/-- C2 counterexample: when the output write fails the console lines are
not those of the no-output-file case: the result is printed bare, with
no separator-line framing. -/
theorem C2_counterexample :
    (emitPhase (some "missing_dir/out.txt") (some "No such file or directory") "RESULT").2 ≠
      (emitPhase none (some "No such file or directory") "RESULT").2 := by
  decide

/-- C2 amended: whenever a run with an output file reaches emission and
the write fails, the program does not exit with an error (exit status
0), nothing is written, and the final result is printed to the console
preceded by the write-error diagnostic, without the separator-line
framing of the no-output-file case. -/
theorem C2_fallback (extract : String → Option String)
    (backend : String → Except String String) (args : Args) (path e r : String)
    (hout : args.output = some path)
    (hdone : (mainRun extract backend (some e) args).outcome = Outcome.done r) :
    (mainRun extract backend (some e) args).written = none ∧
    (∃ pre, (mainRun extract backend (some e) args).console =
      pre ++ ["Error writing to output file: " ++ e, r]) ∧
    exitCode (mainRun extract backend (some e) args).outcome = 0 := by
  rw [mainRun] at hdone ⊢
  by_cases hc : (collectPhase extract args.verbose args.inputs).1 = []
  · simp [hc] at hdone
  · simp only [if_neg hc] at hdone ⊢
    cases hl : llmPhase backend args.verbose args.query
        (combined_content (collectPhase extract args.verbose args.inputs).1) with
    | fatal e2 cs lgs =>
      rw [hl] at hdone
      simp at hdone
    | ok fr cs lgs =>
      rw [hl] at hdone
      simp at hdone
      subst hdone
      rw [hout]
      refine ⟨rfl, ⟨(collectPhase extract args.verbose args.inputs).2 ++ lgs, ?_⟩, rfl⟩
      simp [emitPhase]

set_option maxRecDepth 16384 in
/-- Witness for C2 at a concrete run: one successful extraction, a
successful backend, an output file whose write raises. -/
theorem C2_fallback_witness :
    (Args.mk ["doc.txt"] none (some "out.txt") false).output = some "out.txt" ∧
    (mainRun (fun _ => some "hello") (fun _ => Except.ok "S") (some "boom")
        (Args.mk ["doc.txt"] none (some "out.txt") false)).outcome = Outcome.done "S" ∧
    ((mainRun (fun _ => some "hello") (fun _ => Except.ok "S") (some "boom")
        (Args.mk ["doc.txt"] none (some "out.txt") false)).written = none ∧
      (∃ pre, (mainRun (fun _ => some "hello") (fun _ => Except.ok "S") (some "boom")
          (Args.mk ["doc.txt"] none (some "out.txt") false)).console =
        pre ++ ["Error writing to output file: " ++ "boom", "S"]) ∧
      exitCode (mainRun (fun _ => some "hello") (fun _ => Except.ok "S") (some "boom")
          (Args.mk ["doc.txt"] none (some "out.txt") false)).outcome = 0) := by
  refine ⟨rfl, by decide, ?_⟩
  exact C2_fallback (fun _ => some "hello") (fun _ => Except.ok "S")
    (Args.mk ["doc.txt"] none (some "out.txt") false) "out.txt" "boom" "S" rfl (by decide)

/-- C3 counterexample: a corpus of exactly 4000 characters takes the
single-call path, with exactly one completion call on the whole corpus
and no chunking, where the claim says it takes the chunking path. -/
theorem C3_counterexample :
    (String.mk (List.replicate 4000 'a')).length = 4000 ∧
    llmPhase (fun _ => Except.ok "S") false none (String.mk (List.replicate 4000 'a')) =
      PhaseOut.ok "S" [⟨String.mk (List.replicate 4000 'a'), none⟩] [] := by
  have hlen : (String.mk (List.replicate 4000 'a')).length = 4000 := by
    show (List.replicate 4000 'a').length = 4000
    rw [List.length_replicate]
  refine ⟨hlen, ?_⟩
  rw [llmPhase, if_neg (by rw [hlen]; omega)]
  rfl

/-- C3 amended: for a corpus of at most 4000 characters (including
exactly 4000) the orchestrator skips chunking and issues exactly one
completion call on the whole corpus with the query, whose result is the
final result when the backend succeeds; only for a corpus of strictly
more than 4000 characters is the chunking path taken, whose first
completion call is on the first chunk produced by the splitter. -/
theorem C3_threshold (backend : String → Except String String) (v : Bool)
    (q : Option String) (combined : String) :
    (combined.length ≤ 4000 →
      llmPhase backend v q combined =
        match backend (makePrompt combined q) with
        | .error e => PhaseOut.fatal e [⟨combined, q⟩] ["Error calling OpenAI API: " ++ e]
        | .ok r => PhaseOut.ok r [⟨combined, q⟩] []) ∧
    (4000 < combined.length →
      (llmPhase backend v q combined).calls.head? =
        some ⟨(split_text_into_chunks combined 2000 200).headD "", q⟩) := by
  constructor
  · intro h
    rw [llmPhase, if_neg (by omega)]
    cases hb : backend (makePrompt combined q) with
    | error e2 => simp [process_with_llm, hb]
    | ok r => simp [process_with_llm, hb]
  · intro h
    have hne : split_text_into_chunks combined 2000 200 ≠ [] := by
      rw [split_text_into_chunks]
      simp [chunkFrom_ne_nil]
    obtain ⟨c, cs, hcons⟩ := List.exists_cons_of_ne_nil hne
    rw [llmPhase, if_pos h, hcons]
    simp only [mapChunks]
    cases hb : process_with_llm backend c q with
    | error e => simp [PhaseOut.calls]
    | ok r =>
      cases hm : mapChunks backend v q (c :: cs).length (0 + 1) cs with
      | ok rs calls lgs =>
        by_cases hr2 : 0 < rs.length
        · cases hb2 : process_with_llm backend (String.intercalate "\n\n" (r :: rs))
              (some reduceInstruction) <;>
            simp [hr2, PhaseOut.calls, hb2]
        · simp [hr2, PhaseOut.calls]
      | fatal e calls lgs => simp [PhaseOut.calls]

/-- Witness for C3 at two concrete corpora: a 3-character one (single
call on the whole corpus) and a 4001-character one (first call on the
first chunk). -/
theorem C3_threshold_witness :
    (("abc" : String).length ≤ 4000 ∧
      llmPhase (fun _ => Except.ok "S") false none "abc" =
        PhaseOut.ok "S" [⟨"abc", none⟩] []) ∧
    (4000 < (String.mk (List.replicate 4001 'b')).length ∧
      (llmPhase (fun _ => Except.ok "S") false none
          (String.mk (List.replicate 4001 'b'))).calls.head? =
        some ⟨(split_text_into_chunks (String.mk (List.replicate 4001 'b')) 2000 200).headD "",
          none⟩) := by
  have hlen : 4000 < (String.mk (List.replicate 4001 'b')).length := by
    show 4000 < (List.replicate 4001 'b').length
    rw [List.length_replicate]
    omega
  exact ⟨⟨by decide, (C3_threshold _ false none "abc").1 (by decide)⟩,
    ⟨hlen, (C3_threshold _ false none _).2 hlen⟩⟩

/-- C4: on the chunking path with a backend that answers every prompt,
one completion call is issued per chunk in chunk order, each with the
query as instruction; with more than one chunk result exactly one
additional reduce call follows, whose instruction is the fixed
combine-summaries directive and whose content is the chunk results
joined together, and its output is the final result; with exactly one
chunk result that result is the final result and no reduce call is
made. -/
theorem C4_chunk_map_reduce (f : String → String) (v : Bool) (q : Option String)
    (combined : String) (h : 4000 < combined.length) :
    (1 < (split_text_into_chunks combined 2000 200).length →
      ∃ lgs,
        llmPhase (fun p => Except.ok (f p)) v q combined =
          PhaseOut.ok
            (f (makePrompt
              (String.intercalate "\n\n"
                ((split_text_into_chunks combined 2000 200).map fun c => f (makePrompt c q)))
              (some reduceInstruction)))
            (((split_text_into_chunks combined 2000 200).map fun c => CallRecord.mk c q) ++
              [⟨String.intercalate "\n\n"
                  ((split_text_into_chunks combined 2000 200).map fun c => f (makePrompt c q)),
                some reduceInstruction⟩])
            lgs) ∧
    ((split_text_into_chunks combined 2000 200).length = 1 →
      ∃ lgs,
        llmPhase (fun p => Except.ok (f p)) v q combined =
          PhaseOut.ok
            (((split_text_into_chunks combined 2000 200).map fun c => f (makePrompt c q)).headD "")
            ((split_text_into_chunks combined 2000 200).map fun c => CallRecord.mk c q)
            lgs) := by
  obtain ⟨lgs, hm⟩ := mapChunks_okAll f v q
    (split_text_into_chunks combined 2000 200).length
    (split_text_into_chunks combined 2000 200) 0
  constructor
  · intro h1
    refine ⟨(if v then ["Content size (" ++ toString combined.length ++
        " chars) exceeds processing limit. Chunking content..."] else []) ++
      (if v then ["Split content into " ++
        toString (split_text_into_chunks combined 2000 200).length ++ " chunks"] else []) ++
      lgs ++ (if v then ["Combining results from multiple chunks..."] else []), ?_⟩
    simp only [llmPhase]
    rw [if_pos h, hm]
    simp [process_with_llm, h1]
  · intro h1
    refine ⟨(if v then ["Content size (" ++ toString combined.length ++
        " chars) exceeds processing limit. Chunking content..."] else []) ++
      (if v then ["Split content into " ++
        toString (split_text_into_chunks combined 2000 200).length ++ " chunks"] else []) ++
      lgs, ?_⟩
    simp only [llmPhase]
    rw [if_pos h, hm]
    simp [process_with_llm, h1]

/-- Witness for C4 at a concrete chunking run: a 4001-character corpus,
which splits into more than one chunk, with a backend answering "S" to
every prompt. -/
theorem C4_chunk_map_reduce_witness :
    4000 < (String.mk (List.replicate 4001 'a')).length ∧
    1 < (split_text_into_chunks (String.mk (List.replicate 4001 'a')) 2000 200).length ∧
    (∃ lgs,
      llmPhase (fun _ => Except.ok "S") false none (String.mk (List.replicate 4001 'a')) =
        PhaseOut.ok "S"
          (((split_text_into_chunks (String.mk (List.replicate 4001 'a')) 2000 200).map
              fun c => CallRecord.mk c none) ++
            [⟨String.intercalate "\n\n"
                ((split_text_into_chunks (String.mk (List.replicate 4001 'a')) 2000 200).map
                  fun _ => "S"),
              some reduceInstruction⟩])
          lgs) := by
  have hlen : 4000 < (String.mk (List.replicate 4001 'a')).length := by
    show 4000 < (List.replicate 4001 'a').length
    rw [List.length_replicate]
    omega
  have hchunks : 1 < (split_text_into_chunks (String.mk (List.replicate 4001 'a')) 2000 200).length := by
    rw [split_text_into_chunks, List.length_map]
    refine chunkFrom_one_lt 2000 (2000 - 200) (by omega) _ ?_
    show 2000 < (List.replicate 4001 'a').length
    rw [List.length_replicate]
    omega
  refine ⟨hlen, hchunks, ?_⟩
  have h := (C4_chunk_map_reduce (fun _ => "S") false none
    (String.mk (List.replicate 4001 'a')) hlen).1 hchunks
  exact h

/-- C6: failed inputs are skipped while the loop continues over all
inputs, and the program aborts with the fatal no-content exit (status 1,
non-zero) exactly when every single input failed to yield content. -/
theorem C6_all_fail_abort (extract : String → Option String)
    (backend : String → Except String String) (writeErr : Option String) (args : Args) :
    exitCode Outcome.exitNoContent ≠ 0 ∧
    ((mainRun extract backend writeErr args).outcome = Outcome.exitNoContent ↔
      ∀ src ∈ args.inputs, extract src = none ∨ extract src = some "") := by
  refine ⟨by decide, ?_⟩
  rw [mainRun_noContent_iff, collectPhase_fst, successes_eq_nil_iff]
  constructor
  · intro h src hs
    exact h (extract src) (List.mem_map_of_mem extract hs)
  · intro h r hr
    obtain ⟨src, hs, rfl⟩ := List.mem_map.mp hr
    exact h src hs

/-- Witness for C6: a run whose single input fails to extract ends in
the fatal no-content exit. -/
theorem C6_all_fail_abort_witness :
    (mainRun (fun _ => none) (fun _ => Except.ok "S") none
        (Args.mk ["missing.txt"] none none false)).outcome = Outcome.exitNoContent :=
  (C6_all_fail_abort (fun _ => none) (fun _ => Except.ok "S") none
    (Args.mk ["missing.txt"] none none false)).2.mpr (fun _ _ => Or.inl rfl)

theorem llmPhase_fatal_lastLog (backend : String → Except String String) (v : Bool)
    (q : Option String) (combined : String) (e : String) (cs : List CallRecord)
    (lgs : List String)
    (hf : llmPhase backend v q combined = PhaseOut.fatal e cs lgs) :
    lgs.getLast? = some ("Error calling OpenAI API: " ++ e) := by
  simp only [llmPhase] at hf
  split at hf
  · split at hf
    · rename_i e2 calls lgs2 heq
      simp only [PhaseOut.fatal.injEq] at hf
      obtain ⟨he, _, hl⟩ := hf
      subst he
      have h2 := mapChunks_fatal_lastLog backend v q
        (split_text_into_chunks combined 2000 200).length
        (split_text_into_chunks combined 2000 200) 0 e2 calls lgs2 heq
      rw [← hl, List.getLast?_append, List.getLast?_append, h2]
      rfl
    · rename_i results calls lgs2 heq
      split at hf
      · split at hf
        · rename_i e2 heq2
          simp only [PhaseOut.fatal.injEq] at hf
          obtain ⟨he, _, hl⟩ := hf
          subst he
          rw [← hl, List.getLast?_append]
          rfl
        · simp at hf
      · simp at hf
  · split at hf
    · rename_i e2 heq
      simp only [PhaseOut.fatal.injEq] at hf
      obtain ⟨he, _, hl⟩ := hf
      subst he
      rw [← hl]
      rfl
    · simp at hf

/-- C7: a backend error during any completion call is fatal to the
whole program: the run ends with the backend-error exit carrying that
error, the exit status is non-zero, nothing is written to the output
file, no emission happens after the failure, and the last console line
reports the error. -/
theorem C7_backend_fatal (extract : String → Option String)
    (backend : String → Except String String) (writeErr : Option String) (args : Args)
    (e : String) (cs : List CallRecord) (lgs : List String)
    (hne : ¬ (collectPhase extract args.verbose args.inputs).1 = [])
    (hf : llmPhase backend args.verbose args.query
        (combined_content (collectPhase extract args.verbose args.inputs).1) =
        PhaseOut.fatal e cs lgs) :
    mainRun extract backend writeErr args =
      ⟨Outcome.exitBackend e, none, (collectPhase extract args.verbose args.inputs).2 ++ lgs⟩ ∧
    exitCode (mainRun extract backend writeErr args).outcome ≠ 0 ∧
    (mainRun extract backend writeErr args).console.getLast? =
      some ("Error calling OpenAI API: " ++ e) := by
  have hmain : mainRun extract backend writeErr args =
      ⟨Outcome.exitBackend e, none, (collectPhase extract args.verbose args.inputs).2 ++ lgs⟩ := by
    simp only [mainRun]
    rw [if_neg hne, hf]
  have hlast := llmPhase_fatal_lastLog backend args.verbose args.query
    (combined_content (collectPhase extract args.verbose args.inputs).1) e cs lgs hf
  refine ⟨hmain, by rw [hmain]; exact Nat.one_ne_zero, ?_⟩
  rw [hmain]
  show ((collectPhase extract args.verbose args.inputs).2 ++ lgs).getLast? =
    some ("Error calling OpenAI API: " ++ e)
  rw [List.getLast?_append, hlast]
  rfl

set_option maxRecDepth 16384 in
/-- Witness for C7 at a concrete run: one successful extraction, then a
backend that raises on the single completion call. -/
theorem C7_backend_fatal_witness :
    (¬ (collectPhase (fun _ => some "hello") false ["doc.txt"]).1 = []) ∧
    (llmPhase (fun _ => Except.error "boom") false none
        (combined_content (collectPhase (fun _ => some "hello") false ["doc.txt"]).1) =
      PhaseOut.fatal "boom" [⟨combined_content ["hello"], none⟩]
        ["Error calling OpenAI API: " ++ "boom"]) ∧
    (mainRun (fun _ => some "hello") (fun _ => Except.error "boom") none
        (Args.mk ["doc.txt"] none none false) =
      ⟨Outcome.exitBackend "boom", none,
        (collectPhase (fun _ => some "hello") false ["doc.txt"]).2 ++
          ["Error calling OpenAI API: " ++ "boom"]⟩ ∧
      exitCode (mainRun (fun _ => some "hello") (fun _ => Except.error "boom") none
          (Args.mk ["doc.txt"] none none false)).outcome ≠ 0 ∧
      (mainRun (fun _ => some "hello") (fun _ => Except.error "boom") none
          (Args.mk ["doc.txt"] none none false)).console.getLast? =
        some ("Error calling OpenAI API: " ++ "boom")) := by
  refine ⟨by decide, by decide, ?_⟩
  exact C7_backend_fatal (fun _ => some "hello") (fun _ => Except.error "boom") none
    (Args.mk ["doc.txt"] none none false) "boom" [⟨combined_content ["hello"], none⟩]
    ["Error calling OpenAI API: " ++ "boom"] (by decide) (by decide)

/-- C8: with identical inputs, extraction behaviour and backend, a run
with the verbose flag set and one without produce the same outcome
(hence the same final result and exit status) and write the same
content to the output file: verbosity only adds progress messages. -/
theorem C8_verbose_invariant (extract : String → Option String)
    (backend : String → Except String String) (writeErr : Option String)
    (inputs : List String) (q out : Option String) :
    (mainRun extract backend writeErr (Args.mk inputs q out true)).outcome =
      (mainRun extract backend writeErr (Args.mk inputs q out false)).outcome ∧
    (mainRun extract backend writeErr (Args.mk inputs q out true)).written =
      (mainRun extract backend writeErr (Args.mk inputs q out false)).written := by
  have hc : (collectPhase extract true inputs).1 = (collectPhase extract false inputs).1 := by
    rw [collectPhase_fst, collectPhase_fst]
  simp only [mainRun]
  rw [hc]
  by_cases h : (collectPhase extract false inputs).1 = []
  · simp [h]
  · simp only [if_neg h]
    have hs := llmPhase_strip backend q
      (combined_content (collectPhase extract false inputs).1) true false
    cases h1 : llmPhase backend true q
        (combined_content (collectPhase extract false inputs).1) with
    | fatal e cs lgs =>
      cases h2 : llmPhase backend false q
          (combined_content (collectPhase extract false inputs).1) with
      | fatal e2 cs2 lgs2 =>
        rw [h1, h2] at hs
        simp only [PhaseOut.strip, PhaseOut.fatal.injEq] at hs
        obtain ⟨he, _, _⟩ := hs
        subst he
        exact ⟨rfl, rfl⟩
      | ok fr2 cs2 lgs2 => rw [h1, h2] at hs; simp [PhaseOut.strip] at hs
    | ok fr cs lgs =>
      cases h2 : llmPhase backend false q
          (combined_content (collectPhase extract false inputs).1) with
      | fatal e2 cs2 lgs2 => rw [h1, h2] at hs; simp [PhaseOut.strip] at hs
      | ok fr2 cs2 lgs2 =>
        rw [h1, h2] at hs
        simp only [PhaseOut.strip, PhaseOut.ok.injEq] at hs
        obtain ⟨he, _, _⟩ := hs
        subst he
        exact ⟨rfl, rfl⟩

/-- C10: an extraction that succeeds with the empty string is treated
exactly like a failed extraction: the whole run is unchanged when every
empty result is replaced by an absent one, and when every input yields
absence or the empty string the program takes the fatal no-content
exit, although no extractor need have failed. -/
theorem C10_empty_like_failure (extract : String → Option String)
    (backend : String → Except String String) (writeErr : Option String) (args : Args) :
    mainRun extract backend writeErr args =
      mainRun (fun src =>
        match extract src with
        | some c => if c = "" then none else some c
        | none => none) backend writeErr args ∧
    ((∀ src ∈ args.inputs, extract src = none ∨ extract src = some "") →
      (mainRun extract backend writeErr args).outcome = Outcome.exitNoContent) := by
  constructor
  · have hcol : ∀ inputs : List String, collectPhase extract args.verbose inputs =
        collectPhase (fun src =>
          match extract src with
          | some c => if c = "" then none else some c
          | none => none) args.verbose inputs := by
      intro inputs
      induction inputs with
      | nil => rfl
      | cons src rest ih =>
        rw [collectPhase, collectPhase]
        cases h : extract src with
        | none => simpa using ih
        | some c =>
          by_cases hc : c = ""
          · simp [hc, ih]
          · simp [hc, ih]
    simp only [mainRun]
    rw [hcol args.inputs]
  · intro h
    rw [mainRun_noContent_iff, collectPhase_fst, successes_eq_nil_iff]
    intro r hr
    obtain ⟨src, hs, rfl⟩ := List.mem_map.mp hr
    exact h src hs

/-- Witness for C10: a run whose single input extracts as the empty
string ends in the fatal no-content exit although the extractor
succeeded. -/
theorem C10_empty_like_failure_witness :
    (∀ src ∈ ["empty.txt"],
      (fun _ => some "") src = none ∨ (fun _ => some "") src = some "") ∧
    (mainRun (fun _ => some "") (fun _ => Except.ok "S") none
        (Args.mk ["empty.txt"] none none false)).outcome = Outcome.exitNoContent :=
  ⟨fun _ _ => Or.inr rfl,
    (C10_empty_like_failure (fun _ => some "") (fun _ => Except.ok "S") none
      (Args.mk ["empty.txt"] none none false)).2 (fun _ _ => Or.inr rfl)⟩
